import Mathlib

/-!
Verification of the PNG container decoder in `src/pngDecoder.c` against its
natural-language specification.

The embedding below translates the C source function by function.  Byte
buffers are `List Nat` (each entry one byte of the file); machine integers
are `Nat` (the code's `unsigned int` values always stay below `2 ^ 32`
because every value is assembled from at most four bytes).  Since the C code
performs raw `memcpy` reads with no bounds checks, every read of the model
goes through `readBytes`, which returns `none` exactly when the C `memcpy`
would read past the end of the buffer (undefined behavior in C); such an
execution is reported as the distinguished outcome `Err.outOfBoundsRead`.
Allocation failures (`malloc` returning `NULL`) are not modelled: every
allocation is assumed to succeed.

The host's byte order is threaded through as the boolean `isLE`, exactly as
the C code threads the result of its `IsLittleEndian()` probe.  A `memcpy`
of four wire bytes into an `unsigned int` yields the little-endian
assembly of those bytes on a little-endian host and the big-endian assembly
on a big-endian host; `memcpyU32` models precisely that, and
`normalizeU32` models the conditional `ToLittleEndian` byte swap that the
code applies afterwards.

The fields of the C struct `Ihdr` that `GetIhdrChunkData` writes only
partially (one byte `memcpy` into a four-byte field) are modelled by
passing the pre-call contents of the struct explicitly (`init : Ihdr`):
in the C program the struct is an uninitialized stack variable, so those
remaining bytes hold arbitrary values.

The zlib functions `crc32` and `uncompress` are external to the repository.
`crc32` is modelled by the standard bit-serial CRC-32 algorithm (reflected
polynomial `0xEDB88320`, pre- and post-conditioning with `0xFFFFFFFF`),
which is what zlib computes; `uncompress` is kept abstract and passed as a
function parameter, mirroring the trust boundary drawn by the
specification.
-/

namespace PngDecoder

/-- Error outcomes.  Constructors up to `decompressionFailed` mirror the
distinct `fprintf` + `return -1` paths of `pngDecoder.c`;
`outOfBoundsRead` marks executions in which the C code performs a
`memcpy`/`memcmp` that reads past the end of a buffer (undefined behavior,
made explicit by the model).  The final four constructors name error kinds
that the specification describes but for which the code has no path at
all; the embedding never produces them, and they exist only so that
statements about them can be written down. -/
inductive Err where
  | invalidSignature
  | readFailed
  | outOfBoundsRead
  | checksumMismatch
  | headerTooShort
  | invalidDimension
  | invalidBitDepth
  | invalidColorType
  | incompatibleBitDepthAndColorType
  | unsupportedCompressionMethod
  | unsupportedFilterMethod
  | invalidInterlaceMethod
  | decompressionFailed
  | noImageData
  | truncated
  | invalidLength
  | unexpectedEndOfContainer
  deriving DecidableEq

/-- One chunk record, mirroring `struct Chunk`: the declared payload length,
the four type-tag bytes (the C struct additionally stores a trailing NUL,
which the model appends at every `strcmp` comparison site), and the payload
bytes copied out of the file buffer. -/
structure Chunk where
  dataLength : Nat
  type : List Nat
  data : List Nat
  deriving DecidableEq

/-- The header record, mirroring `struct Ihdr`.  `width`, `height`,
`bitDepth` are `unsigned int` and `colorType` is an `enum` (four bytes
each); `compressionMethod`, `filterMethod`, `interlaceMethod` are single
`char`s.  All are represented by the `Nat` whose binary form is the field's
bit pattern. -/
structure Ihdr where
  width : Nat
  height : Nat
  bitDepth : Nat
  colorType : Nat
  compressionMethod : Nat
  filterMethod : Nat
  interlaceMethod : Nat
  deriving DecidableEq

/-- The fixed 8-byte file signature from `FillBuffer`. -/
def pngSignature : List Nat := [137, 80, 78, 71, 13, 10, 26, 10]

/-- Byte values of the terminator tag `"IEND"` (`LAST_CHUNK_TYPE_SIGNATURE`). -/
def iendType : List Nat := [73, 69, 78, 68]

/-- Byte values of the image-data tag `"IDAT"` (`DATA_CHUNK_TYPE`). -/
def idatType : List Nat := [73, 68, 65, 84]

/-- Byte values of the header tag `"IHDR"`. -/
def ihdrType : List Nat := [73, 72, 68, 82]

/-- Read `n` bytes of `buffer` starting at `pos`: the model of a `memcpy`
from `buffer + pos`.  Returns `none` exactly when the C read would touch a
byte past the end of the buffer. -/
def readBytes (buffer : List Nat) (pos n : Nat) : Option (List Nat) :=
  if pos + n ≤ buffer.length then some ((buffer.drop pos).take n) else none

/-- The C function `ToLittleEndian`: an unconditional 32-bit byte swap. -/
def ToLittleEndian (value : Nat) : Nat :=
  ((value &&& 0xFF000000) >>> 24) ||| ((value &&& 0x00FF0000) >>> 8) |||
    ((value &&& 0x0000FF00) <<< 8) ||| ((value &&& 0x000000FF) <<< 24)

/-- Value of an `unsigned int` whose four bytes, in memory order, are the
given list, on a little-endian host. -/
def leVal : List Nat → Nat
  | [b0, b1, b2, b3] => b0 + b1 * 256 + b2 * 65536 + b3 * 16777216
  | _ => 0

/-- Value of an `unsigned int` whose four bytes, in memory order, are the
given list, on a big-endian host. -/
def beVal : List Nat → Nat
  | [b0, b1, b2, b3] => b0 * 16777216 + b1 * 65536 + b2 * 256 + b3
  | _ => 0

/-- The value a `memcpy` of four wire bytes into an `unsigned int` produces,
as a function of the host byte order probed by `IsLittleEndian()`. -/
def memcpyU32 (isLE : Bool) (bytes : List Nat) : Nat :=
  if isLE then leVal bytes else beVal bytes

/-- The conditional byte swap the code applies after each 4-byte `memcpy`:
`if (isLittleEndian) value = ToLittleEndian(value);`. -/
def normalizeU32 (isLE : Bool) (value : Nat) : Nat :=
  if isLE then ToLittleEndian value else value

/-- Composite of `memcpyU32` and `normalizeU32`: the host value the code
obtains for a 4-byte big-endian wire field. -/
def readU32 (isLE : Bool) (bytes : List Nat) : Nat :=
  normalizeU32 isLE (memcpyU32 isLE bytes)

/-- Big-endian wire encoding of a 32-bit value, used to build test buffers
and to state the round-trip property (the on-wire layout from section 6 of
the specification). -/
def u32be (n : Nat) : List Nat :=
  [n / 16777216 % 256, n / 65536 % 256, n / 256 % 256, n % 256]

/-- The CRC-32 polynomial (reflected), as used by zlib. -/
def crcPoly : Nat := 0xEDB88320

/-- One shift-and-conditionally-xor step of the bit-serial CRC-32. -/
def crcBitStep (c : Nat) : Nat :=
  if c % 2 = 1 then (c >>> 1) ^^^ crcPoly else c >>> 1

/-- Iterate `crcBitStep`. -/
def crcBits : Nat → Nat → Nat
  | 0, c => c
  | n + 1, c => crcBits n (crcBitStep c)

/-- Absorb one message byte into the running CRC register. -/
def crcByteUpdate (c b : Nat) : Nat := crcBits 8 (c ^^^ (b % 256))

/-- Modelled from the spec: the zlib `crc32(start, buf, len)` call, which is
external to this repository.  It is the format's standard 32-bit checksum:
the register is pre- and post-conditioned with `0xFFFFFFFF` (so
`crc32 0 [] = 0`, the seed the code obtains from `crc32(0L, Z_NULL, 0)`),
and bytes are absorbed through the reflected polynomial `0xEDB88320`. -/
def crc32 (start : Nat) (buf : List Nat) : Nat :=
  (buf.foldl crcByteUpdate (start ^^^ 0xFFFFFFFF)) ^^^ 0xFFFFFFFF

/-- The checksum `ReadChunk` recomputes: seeded with `crc32(0L, Z_NULL, 0)`,
then fed the four type bytes, then the payload. -/
def chunkChecksum (typeBytes data : List Nat) : Nat :=
  crc32 (crc32 (crc32 0 []) typeBytes) data

/-- The C `strcmp(a, b) == 0` on NUL-terminated byte sequences: compare
byte by byte, stopping (with success) at a common NUL. -/
def cstrEq : List Nat → List Nat → Bool
  | [], [] => true
  | [], _ :: _ => false
  | _ :: _, [] => false
  | a :: as, b :: bs => if a = b then (if a = 0 then true else cstrEq as bs) else false

/-- The chunk-type comparisons of the program:
`strcmp(chunk.type, tag) == 0`, where `chunk.type` carries the appended NUL
(`chunk->type[CHUNK_TYPE_LENGTH] = '\0'`) and the tag literal carries its
own terminating NUL. -/
def typeMatches (t tag : List Nat) : Bool :=
  cstrEq (t ++ [0]) (tag ++ [0])

/-- The C function `ReadChunk` (`pngDecoder.c` lines 98-143).  It performs
four raw reads — length, type tag, payload, stored CRC — with no bounds
check whatever, then verifies the checksum.  The cursor is advanced
`4 + 4 + dataLength + 4` bytes; the model returns the advanced cursor
instead of mutating it (the C code also advances the cursor on paths that
fail later, but every such path returns `-1`, so only the success value is
observable). -/
def ReadChunk (isLE : Bool) (buffer : List Nat) (cursor : Nat) :
    Except Err (Chunk × Nat) :=
  match readBytes buffer cursor 4 with
  | none => .error .outOfBoundsRead
  | some lenBytes =>
    match readBytes buffer (cursor + 4) 4 with
    | none => .error .outOfBoundsRead
    | some typeBytes =>
      match readBytes buffer (cursor + 4 + 4) (readU32 isLE lenBytes) with
      | none => .error .outOfBoundsRead
      | some data =>
        match readBytes buffer (cursor + 4 + 4 + readU32 isLE lenBytes) 4 with
        | none => .error .outOfBoundsRead
        | some crcBytes =>
          if readU32 isLE crcBytes ≠ chunkChecksum typeBytes data
          then .error .checksumMismatch
          else .ok ({ dataLength := readU32 isLE lenBytes
                      type := typeBytes
                      data := data },
                    cursor + 4 + 4 + readU32 isLE lenBytes + 4)

/-- The C function `FillBuffer` (lines 47-78), restricted to its parsing
content: the file has already been materialized into `buffer` (file I/O is
out of scope).  `fread_s` returning `<= 0` on an empty file is the
`readFailed` path; then `memcmp` compares the first 8 bytes against the
signature.  When the buffer is shorter than 8 bytes and agrees with the
signature as far as it goes, the `memcmp` reads past the end of the
buffer. On success the cursor is set to 8. -/
def FillBuffer (buffer : List Nat) : Except Err Nat :=
  if buffer.length = 0 then .error .readFailed
  else if buffer.take 8 = pngSignature then .ok 8
  else if buffer.length < 8 ∧ buffer = pngSignature.take buffer.length then
    .error .outOfBoundsRead
  else .error .invalidSignature

/-- The chunk-collection loop of `main` (lines 348-375): starting from the
cursor left by `FillBuffer`, repeatedly call `ReadChunk`, append the chunk
(the model accumulates the list directly; `AppendChunk`'s `realloc` is an
allocation that is assumed to succeed), and stop once
`strcmp(chunk.type, "IEND") == 0`.  The C loop is `for(;;)` with no bound:
it terminates only through the terminator tag or through `ReadChunk`
failing, which in the model is guaranteed because a successful `ReadChunk`
strictly advances the cursor while keeping it inside the buffer. -/
def parseChunks (isLE : Bool) (buffer : List Nat) (cursor : Nat) :
    Except Err (List Chunk) :=
  match h : ReadChunk isLE buffer cursor with
  | .error e => .error e
  | .ok (chunk, nextCursor) =>
    if typeMatches chunk.type iendType then .ok [chunk]
    else
      match parseChunks isLE buffer nextCursor with
      | .error e => .error e
      | .ok rest => .ok (chunk :: rest)
  termination_by buffer.length - cursor
  decreasing_by
    simp only [ReadChunk] at h
    split at h
    next => exact absurd h (by simp)
    next lenBytes heq1 =>
      split at h
      next => exact absurd h (by simp)
      next typeBytes heq2 =>
        split at h
        next => exact absurd h (by simp)
        next data heq3 =>
          split at h
          next => exact absurd h (by simp)
          next crcBytes heq4 =>
            split at h
            next => exact absurd h (by simp)
            next =>
              simp only [Except.ok.injEq, Prod.mk.injEq] at h
              obtain ⟨-, h4⟩ := h
              simp only [readBytes] at heq4
              split at heq4
              next hle => omega
              next => exact absurd heq4 (by simp)

/-- The container walk as `main` performs it: `FillBuffer` (signature
check, cursor to 8) followed by the chunk-collection loop. -/
def parseContainer (isLE : Bool) (buffer : List Nat) : Except Err (List Chunk) :=
  match FillBuffer buffer with
  | .error e => .error e
  | .ok cursor => parseChunks isLE buffer cursor

/-- A one-byte `memcpy` into a four-byte integer field
(`memcpy(&ihdr->bitDepth, data + index, 1)`): on a little-endian host the
least-significant byte of the old contents is replaced, on a big-endian
host the most-significant byte.  The other three bytes keep whatever the
field held before the call. -/
def writeOneByte (isLE : Bool) (old b : Nat) : Nat :=
  if isLE then old / 256 * 256 + b else old % 16777216 + b * 16777216

/-- The `switch ((int)ihdr->colorType)` block of `GetIhdrChunkData`:
`true` when the (colorType, bitDepth) pair passes, `false` on the
`IHDR color type and bit depth invalid pair` paths.  Color types without a
`case` label (grayscale, and anything that slipped past the earlier
membership check) fall through the switch and pass. -/
def ihdrPairCheck (colorType bitDepth : Nat) : Bool :=
  if colorType = 2 then bitDepth == 8 || bitDepth == 16
  else if colorType = 3 then
    bitDepth == 1 || bitDepth == 2 || bitDepth == 4 || bitDepth == 8
  else if colorType = 4 then bitDepth == 8 || bitDepth == 16
  else if colorType = 6 then bitDepth == 8 || bitDepth == 16
  else true

/-- The C function `GetIhdrChunkData` (lines 180-280).  `init` is the
pre-call contents of the caller's `Ihdr ihdr;` stack variable, which the C
code never initializes: the one-byte `memcpy`s into the four-byte
`bitDepth` and `colorType` fields leave the remaining three bytes of
`init` in place.  Reads address the chunk's payload buffer, which holds
exactly `dataLength` bytes, so after the `dataLength >= 13` guard they are
in bounds whenever the chunk invariant `data.length = dataLength` holds.
The width and height are compared against zero before the conditional
byte swap, exactly as in the source. -/
def GetIhdrChunkData (isLE : Bool) (ihdrChunk : Chunk) (init : Ihdr) :
    Except Err Ihdr :=
  if ihdrChunk.dataLength < 13 then .error .headerTooShort
  else
    match readBytes ihdrChunk.data 0 4 with
    | none => .error .outOfBoundsRead
    | some wBytes =>
      if memcpyU32 isLE wBytes = 0 then .error .invalidDimension
      else
        match readBytes ihdrChunk.data 4 4 with
        | none => .error .outOfBoundsRead
        | some hBytes =>
          if memcpyU32 isLE hBytes = 0 then .error .invalidDimension
          else
            match ihdrChunk.data[8]? with
            | none => .error .outOfBoundsRead
            | some bdByte =>
              if writeOneByte isLE init.bitDepth bdByte ≠ 1 ∧
                  writeOneByte isLE init.bitDepth bdByte ≠ 2 ∧
                  writeOneByte isLE init.bitDepth bdByte ≠ 4 ∧
                  writeOneByte isLE init.bitDepth bdByte ≠ 8 ∧
                  writeOneByte isLE init.bitDepth bdByte ≠ 16 then
                .error .invalidBitDepth
              else
                match ihdrChunk.data[9]? with
                | none => .error .outOfBoundsRead
                | some ctByte =>
                  if writeOneByte isLE init.colorType ctByte ≠ 0 ∧
                      writeOneByte isLE init.colorType ctByte ≠ 2 ∧
                      writeOneByte isLE init.colorType ctByte ≠ 3 ∧
                      writeOneByte isLE init.colorType ctByte ≠ 4 ∧
                      writeOneByte isLE init.colorType ctByte ≠ 6 then
                    .error .invalidColorType
                  else
                    if ihdrPairCheck (writeOneByte isLE init.colorType ctByte)
                        (writeOneByte isLE init.bitDepth bdByte) then
                      match ihdrChunk.data[10]? with
                      | none => .error .outOfBoundsRead
                      | some cm =>
                        if cm ≠ 0 then .error .unsupportedCompressionMethod
                        else
                          match ihdrChunk.data[11]? with
                          | none => .error .outOfBoundsRead
                          | some fm =>
                            if fm ≠ 0 then .error .unsupportedFilterMethod
                            else
                              match ihdrChunk.data[12]? with
                              | none => .error .outOfBoundsRead
                              | some im =>
                                if im ≠ 0 ∧ im ≠ 1 then
                                  .error .invalidInterlaceMethod
                                else
                                  .ok { width := normalizeU32 isLE (memcpyU32 isLE wBytes)
                                        height := normalizeU32 isLE (memcpyU32 isLE hBytes)
                                        bitDepth := writeOneByte isLE init.bitDepth bdByte
                                        colorType := writeOneByte isLE init.colorType ctByte
                                        compressionMethod := cm
                                        filterMethod := fm
                                        interlaceMethod := im }
                    else .error .incompatibleBitDepthAndColorType

/-- A `memcpy` of a byte list into flat memory at position `pos`.  Memory
is a total function from addresses to bytes, so the untouched cells keep
their previous (for `malloc`ed buffers: indeterminate) contents. -/
def writeBytes (mem : Nat → Nat) (pos : Nat) : List Nat → (Nat → Nat)
  | [] => mem
  | b :: rest => writeBytes (fun j => if j = pos then b else mem j) (pos + 1) rest

/-- The IDAT-collection loop of `DecompressIdatChuncks` (lines 290-300):
for each chunk whose type tag is `"IDAT"`, `memcpy` its payload into the
`compressedSource` buffer at offset `compressedSourceIndex`, add its
`dataLength` to `compressedSize`, and increment `compressedSourceIndex`
by one.  Returns the final memory, index and size. -/
def DecompressLoop (chunks : List Chunk) (mem : Nat → Nat) (idx size : Nat) :
    (Nat → Nat) × Nat × Nat :=
  match chunks with
  | [] => (mem, idx, size)
  | c :: rest =>
    if typeMatches c.type idatType then
      DecompressLoop rest (writeBytes mem idx c.data) (idx + 1) (size + c.dataLength)
    else DecompressLoop rest mem idx size

/-- The compressed buffer handed to `uncompress`: the first
`compressedSize` bytes of `compressedSource` after the collection loop.
`mem` is the indeterminate initial contents of the `malloc`ed buffer. -/
def compressedOf (chunks : List Chunk) (mem : Nat → Nat) : List Nat :=
  (List.range (DecompressLoop chunks mem 0 0).2.2).map (DecompressLoop chunks mem 0 0).1

/-- The C function `DecompressIdatChuncks` (lines 282-322), parametric in
the external zlib `uncompress` routine (spec section 6: a trusted external
decompressor returning either the inflated bytes or a failure status).
The collected compressed buffer is decompressed; a non-`Z_OK` status is
the `Cannot decompress!` path.  On success the function's local
`uncompressedDestination` holds the inflated bytes and `uncompressedSize`
their count; the model returns those bytes (the length the caller receives
through the pointer out-parameter is their count). -/
def DecompressIdatChuncks (uncompress : List Nat → Except Int (List Nat))
    (chunks : List Chunk) (mem : Nat → Nat) : Except Err (List Nat) :=
  match uncompress (compressedOf chunks mem) with
  | .error _ => .error .decompressionFailed
  | .ok out => .ok out

/-- The final loop of `main` (lines 406-409):
`for(i = 0; i < uncompressedSize; i += ihdr.width * 4) print *(dest + i)`.
`dest` is whatever main's `uncompressedDestination` pointer addresses.
The stride is positive in every reachable call (`width` was validated
non-zero), and the guard keeps the model total. -/
def printLoop (dest : Nat → Nat) (size stride i : Nat) : List Nat :=
  if h : i < size ∧ 0 < stride then dest i :: printLoop dest size stride (i + stride)
  else []
  termination_by size - i
  decreasing_by omega

/-- The observable run of `main` (lines 324-417) after `IsLittleEndian` and
file loading: signature check, chunk loop, header extraction, IDAT
decompression, then the byte-dump loop.  `ihdrInit` is the indeterminate
content of the uninitialized `Ihdr ihdr;` variable and `srcMem` that of the
`compressedSource` allocation.  `callerDest` is the memory addressed by
main's `uncompressedDestination` pointer: the pointer is passed to
`DecompressIdatChuncks` BY VALUE and never assigned in `main`, so the dump
loop reads through the uninitialized pointer, not from the buffer the
decompressor filled — the model reproduces that by dumping `callerDest`.
The `.ok []` case of the chunk loop cannot occur (the loop always appends
the chunk it just read before testing for the terminator); the branch is
present only to make the match total. -/
def mainProgram (isLE : Bool) (uncompress : List Nat → Except Int (List Nat))
    (fileBytes : List Nat) (ihdrInit : Ihdr) (callerDest srcMem : Nat → Nat) :
    Except Err (List Nat) :=
  match FillBuffer fileBytes with
  | .error e => .error e
  | .ok cursor =>
    match parseChunks isLE fileBytes cursor with
    | .error e => .error e
    | .ok [] => .error .outOfBoundsRead
    | .ok (firstChunk :: restChunks) =>
      match GetIhdrChunkData isLE firstChunk ihdrInit with
      | .error e => .error e
      | .ok ihdr =>
        match DecompressIdatChuncks uncompress (firstChunk :: restChunks) srcMem with
        | .error e => .error e
        | .ok inflated => .ok (printLoop callerDest inflated.length (ihdr.width * 4) 0)

/-- On-wire layout of a single chunk (spec section 6):
`length:u32(big-endian) | type:4 bytes | payload | checksum:u32(big-endian)`,
with the checksum computed over `type || payload`.  Used to state the
round-trip property for the container walk. -/
def serializeChunk (c : Chunk) : List Nat :=
  u32be c.dataLength ++ c.type ++ c.data ++ u32be (chunkChecksum c.type c.data)

/-- Concatenation of the wire forms of a chunk sequence. -/
def serializeChunks : List Chunk → List Nat
  | [] => []
  | c :: rest => serializeChunk c ++ serializeChunks rest

/-- Structural well-formedness of an in-memory chunk: the declared length
is the payload length and fits in the 32-bit wire field, and the type tag
is four bytes. -/
def wfChunk (c : Chunk) : Prop :=
  c.dataLength = c.data.length ∧ c.dataLength < 2 ^ 32 ∧ c.type.length = 4

instance (c : Chunk) : Decidable (wfChunk c) := by
  unfold wfChunk
  infer_instance

/-- A chunk sequence that ends with the terminator: every chunk before the
last fails the `strcmp` with `"IEND"` and the last one matches it.  This is
the shape of sequence the container walk is specified to return. -/
def isTerminatorSeq : List Chunk → Bool
  | [] => false
  | [c] => typeMatches c.type iendType
  | c :: rest => !typeMatches c.type iendType && isTerminatorSeq rest

/-- Modelled from the spec (section 4.3): the table of legal
(bitDepth, colorType) combinations, written from the specification's words
to compare against the code's `ihdrPairCheck`: grayscale (0) accepts
bit depths 1, 2, 4, 8, 16; truecolor (2), grayscale-with-alpha (4) and
truecolor-with-alpha (6) accept 8 and 16; indexed (3) accepts 1, 2, 4, 8. -/
def specLegalPair (bitDepth colorType : Nat) : Bool :=
  if colorType = 0 then
    bitDepth == 1 || bitDepth == 2 || bitDepth == 4 || bitDepth == 8 || bitDepth == 16
  else if colorType = 2 || colorType = 4 || colorType = 6 then
    bitDepth == 8 || bitDepth == 16
  else if colorType = 3 then
    bitDepth == 1 || bitDepth == 2 || bitDepth == 4 || bitDepth == 8
  else false

/-- A well-formed 1x1 bit-depth-8 TruecolorAlpha header chunk, used as a
concrete end-to-end input. -/
def demoIhdrChunk : Chunk :=
  { dataLength := 13, type := ihdrType, data := [0, 0, 0, 1, 0, 0, 0, 1, 8, 6, 0, 0, 0] }

/-- A 3-byte image-data chunk for the concrete end-to-end input. -/
def demoIdatChunk : Chunk :=
  { dataLength := 3, type := idatType, data := [1, 2, 3] }

/-- The terminator chunk for the concrete end-to-end input. -/
def demoIendChunk : Chunk :=
  { dataLength := 0, type := iendType, data := [] }

/-- A complete well-formed file: signature, header chunk, one image-data
chunk, terminator chunk, each with a correct CRC-32. -/
def demoFile : List Nat :=
  pngSignature ++ serializeChunks [demoIhdrChunk, demoIdatChunk, demoIendChunk]

-- Decidable equality of `Except` results, for evaluating the model on
-- concrete inputs.
deriving instance DecidableEq for Except

theorem and_mask_shiftLeft (x m k : Nat) : x &&& (m <<< k) = ((x >>> k) &&& m) <<< k := by
  apply Nat.eq_of_testBit_eq
  intro i
  simp only [Nat.testBit_and, Nat.testBit_shiftLeft, Nat.testBit_shiftRight]
  by_cases h : k ≤ i
  · have he : k + (i - k) = i := by omega
    simp [h, he, Bool.and_left_comm]
  · simp [h]

theorem or_add_of_lt {a b k : Nat} (h : a < 2 ^ k) : a ||| b * 2 ^ k = a + b * 2 ^ k := by
  apply Nat.eq_of_testBit_eq
  intro i
  rw [Nat.testBit_or]
  by_cases hik : i < k
  · have hb : (b * 2 ^ k).testBit i = false := by
      rw [← Nat.shiftLeft_eq, Nat.testBit_shiftLeft]
      have : ¬ (k ≤ i) := by omega
      simp [this]
    have ha : (a + b * 2 ^ k).testBit i = a.testBit i := by
      have h1 : (a + b * 2 ^ k) % 2 ^ k = a := by
        rw [Nat.add_mul_mod_self_right, Nat.mod_eq_of_lt h]
      conv_rhs => rw [← h1]
      rw [Nat.testBit_mod_two_pow]
      simp [hik]
    rw [hb, ha, Bool.or_false]
  · have ha : a.testBit i = false :=
      Nat.testBit_lt_two_pow (lt_of_lt_of_le h (Nat.pow_le_pow_right (by norm_num) (by omega)))
    have hdiv : (a + b * 2 ^ k) >>> k = b := by
      rw [Nat.shiftRight_eq_div_pow, Nat.add_mul_div_right _ _ (Nat.two_pow_pos k),
        Nat.div_eq_of_lt h, Nat.zero_add]
    have hb : (b * 2 ^ k).testBit i = b.testBit (i - k) := by
      rw [← Nat.shiftLeft_eq, Nat.testBit_shiftLeft]
      have hki : k ≤ i := by omega
      simp [hki]
    have hc : (a + b * 2 ^ k).testBit i = b.testBit (i - k) := by
      have hi : i = k + (i - k) := by omega
      conv_lhs => rw [hi]
      rw [← Nat.testBit_shiftRight, hdiv]
    rw [ha, hb, hc, Bool.false_or]

theorem ToLittleEndian_leVal (b0 b1 b2 b3 : Nat) (hb0 : b0 < 256) (hb1 : b1 < 256)
    (hb2 : b2 < 256) (hb3 : b3 < 256) :
    ToLittleEndian (leVal [b0, b1, b2, b3]) = beVal [b0, b1, b2, b3] := by
  have hpow8 : (2 : Nat) ^ 8 = 256 := by norm_num
  have hpow16 : (2 : Nat) ^ 16 = 65536 := by norm_num
  have hpow24 : (2 : Nat) ^ 24 = 16777216 := by norm_num
  simp only [leVal, beVal, ToLittleEndian]
  set v := b0 + b1 * 256 + b2 * 65536 + b3 * 16777216 with hv
  have m1 : v &&& 0xFF000000 = b3 * 16777216 := by
    rw [show (0xFF000000 : Nat) = 255 <<< 24 from by simp [Nat.shiftLeft_eq],
      and_mask_shiftLeft, Nat.shiftRight_eq_div_pow, Nat.shiftLeft_eq,
      show (255 : Nat) = 2 ^ 8 - 1 from by norm_num, Nat.and_pow_two_sub_one_eq_mod,
      hpow8, hpow24]
    omega
  have m2 : v &&& 0x00FF0000 = b2 * 65536 := by
    rw [show (0x00FF0000 : Nat) = 255 <<< 16 from by simp [Nat.shiftLeft_eq],
      and_mask_shiftLeft, Nat.shiftRight_eq_div_pow, Nat.shiftLeft_eq,
      show (255 : Nat) = 2 ^ 8 - 1 from by norm_num, Nat.and_pow_two_sub_one_eq_mod,
      hpow8, hpow16]
    omega
  have m3 : v &&& 0x0000FF00 = b1 * 256 := by
    rw [show (0x0000FF00 : Nat) = 255 <<< 8 from by simp [Nat.shiftLeft_eq],
      and_mask_shiftLeft, Nat.shiftRight_eq_div_pow, Nat.shiftLeft_eq,
      show (255 : Nat) = 2 ^ 8 - 1 from by norm_num, Nat.and_pow_two_sub_one_eq_mod,
      hpow8]
    omega
  have m4 : v &&& 0x000000FF = b0 := by
    rw [show (0x000000FF : Nat) = 2 ^ 8 - 1 from by norm_num,
      Nat.and_pow_two_sub_one_eq_mod, hpow8]
    omega
  have t1 : (v &&& 0xFF000000) >>> 24 = b3 := by
    rw [m1, Nat.shiftRight_eq_div_pow, hpow24]
    omega
  have t2 : (v &&& 0x00FF0000) >>> 8 = b2 * 256 := by
    rw [m2, Nat.shiftRight_eq_div_pow, hpow8]
    omega
  have t3 : (v &&& 0x0000FF00) <<< 8 = b1 * 65536 := by
    rw [m3, Nat.shiftLeft_eq, hpow8]
    omega
  have t4 : (v &&& 0x000000FF) <<< 24 = b0 * 16777216 := by
    rw [m4, Nat.shiftLeft_eq, hpow24]
  rw [t1, t2, t3, t4]
  have o1 : b3 ||| b2 * 256 = b3 + b2 * 256 := by
    have := or_add_of_lt (a := b3) (b := b2) (k := 8) (by omega)
    rwa [hpow8] at this
  have o2 : b3 + b2 * 256 ||| b1 * 65536 = b3 + b2 * 256 + b1 * 65536 := by
    have := or_add_of_lt (a := b3 + b2 * 256) (b := b1) (k := 16) (by rw [hpow16]; omega)
    rwa [hpow16] at this
  have o3 : b3 + b2 * 256 + b1 * 65536 ||| b0 * 16777216 =
      b3 + b2 * 256 + b1 * 65536 + b0 * 16777216 := by
    have := or_add_of_lt (a := b3 + b2 * 256 + b1 * 65536) (b := b0) (k := 24)
      (by rw [hpow24]; omega)
    rwa [hpow24] at this
  rw [o1, o2, o3]
  omega

theorem beVal_u32be {n : Nat} (h : n < 2 ^ 32) : beVal (u32be n) = n := by
  simp only [u32be, beVal]
  have h32 : (2 : Nat) ^ 32 = 4294967296 := by norm_num
  omega

theorem readU32_u32be (isLE : Bool) {n : Nat} (h : n < 2 ^ 32) :
    readU32 isLE (u32be n) = n := by
  cases isLE
  · simp only [readU32, memcpyU32, normalizeU32, Bool.false_eq_true, if_false]
    exact beVal_u32be h
  · simp only [readU32, memcpyU32, normalizeU32, if_true, u32be]
    rw [ToLittleEndian_leVal _ _ _ _ (Nat.mod_lt _ (by norm_num)) (Nat.mod_lt _ (by norm_num))
      (Nat.mod_lt _ (by norm_num)) (Nat.mod_lt _ (by norm_num))]
    have := beVal_u32be h
    simpa [u32be] using this

theorem crcBitStep_lt {c : Nat} (h : c < 2 ^ 32) : crcBitStep c < 2 ^ 32 := by
  have hdiv : c >>> 1 < 2 ^ 32 := by
    rw [Nat.shiftRight_eq_div_pow]
    exact lt_of_le_of_lt (Nat.div_le_self _ _) h
  unfold crcBitStep
  split
  · exact Nat.xor_lt_two_pow hdiv (by norm_num [crcPoly])
  · exact hdiv

theorem crcBits_lt : ∀ (n : Nat) {c : Nat}, c < 2 ^ 32 → crcBits n c < 2 ^ 32
  | 0, _, h => h
  | n + 1, _, h => crcBits_lt n (crcBitStep_lt h)

theorem crcByteUpdate_lt {c : Nat} (b : Nat) (h : c < 2 ^ 32) : crcByteUpdate c b < 2 ^ 32 :=
  crcBits_lt 8 (Nat.xor_lt_two_pow h (lt_of_lt_of_le (Nat.mod_lt _ (by norm_num)) (by norm_num)))

theorem crc32_lt (start : Nat) (buf : List Nat) (h : start < 2 ^ 32) :
    crc32 start buf < 2 ^ 32 := by
  unfold crc32
  have hfold : ∀ (l : List Nat) (c : Nat), c < 2 ^ 32 → l.foldl crcByteUpdate c < 2 ^ 32 := by
    intro l
    induction l with
    | nil => intro c hc; exact hc
    | cons b r ih => intro c hc; exact ih _ (crcByteUpdate_lt b hc)
  exact Nat.xor_lt_two_pow (hfold buf _ (Nat.xor_lt_two_pow h (by norm_num))) (by norm_num)

theorem chunkChecksum_lt (t d : List Nat) : chunkChecksum t d < 2 ^ 32 :=
  crc32_lt _ _ (crc32_lt _ _ (crc32_lt _ _ (by norm_num)))

theorem readBytes_some_bound {b : List Nat} {p n : Nat} {l : List Nat}
    (h : readBytes b p n = some l) : p + n ≤ b.length := by
  unfold readBytes at h
  split at h
  · assumption
  · simp at h

theorem readBytes_at (a b rest : List Nat) {n : Nat} (hb : b.length = n) :
    readBytes (a ++ b ++ rest) a.length n = some b := by
  have hc : a.length + n ≤ (a ++ b ++ rest).length := by
    simp [List.length_append]
    omega
  unfold readBytes
  rw [if_pos hc, List.append_assoc, List.drop_left, ← hb, List.take_left]

theorem ReadChunk_eval {isLE : Bool} {b : List Nat} {cursor : Nat}
    {lenBytes typeBytes data crcBytes : List Nat}
    (h1 : readBytes b cursor 4 = some lenBytes)
    (h2 : readBytes b (cursor + 4) 4 = some typeBytes)
    (h3 : readBytes b (cursor + 4 + 4) (readU32 isLE lenBytes) = some data)
    (h4 : readBytes b (cursor + 4 + 4 + readU32 isLE lenBytes) 4 = some crcBytes) :
    ReadChunk isLE b cursor =
      if readU32 isLE crcBytes ≠ chunkChecksum typeBytes data then .error .checksumMismatch
      else .ok ({ dataLength := readU32 isLE lenBytes, type := typeBytes, data := data },
                cursor + 4 + 4 + readU32 isLE lenBytes + 4) := by
  simp only [ReadChunk, h1, h2, h3, h4]

theorem ReadChunk_ok_bounds {isLE : Bool} {b : List Nat} {cursor : Nat}
    {ch : Chunk} {nc : Nat} (h : ReadChunk isLE b cursor = .ok (ch, nc)) :
    cursor < nc ∧ nc ≤ b.length := by
  simp only [ReadChunk] at h
  split at h
  · exact absurd h (by simp)
  next lenBytes heq1 =>
    split at h
    · exact absurd h (by simp)
    next typeBytes heq2 =>
      split at h
      · exact absurd h (by simp)
      next data heq3 =>
        split at h
        · exact absurd h (by simp)
        next crcBytes heq4 =>
          split at h
          · exact absurd h (by simp)
          · simp only [Except.ok.injEq, Prod.mk.injEq] at h
            obtain ⟨-, h4⟩ := h
            have := readBytes_some_bound heq4
            omega

theorem ReadChunk_error_cases {isLE : Bool} {b : List Nat} {cursor : Nat} {e : Err}
    (h : ReadChunk isLE b cursor = .error e) :
    e = .outOfBoundsRead ∨ e = .checksumMismatch := by
  simp only [ReadChunk] at h
  split at h
  · left
    simpa using h.symm
  · split at h
    · left
      simpa using h.symm
    · split at h
      · left
        simpa using h.symm
      · split at h
        · left
          simpa using h.symm
        · split at h
          · right
            simpa using h.symm
          · exact absurd h (by simp)

theorem parseChunks_error {isLE : Bool} {b : List Nat} {c : Nat} {e : Err}
    (h : ReadChunk isLE b c = .error e) : parseChunks isLE b c = .error e := by
  rw [parseChunks]
  split
  next e2 heq =>
    rw [h] at heq
    cases heq
    rfl
  next ch nc heq =>
    rw [h] at heq
    cases heq

theorem parseChunks_ok_end {isLE : Bool} {b : List Nat} {c : Nat} {ch : Chunk} {nc : Nat}
    (h : ReadChunk isLE b c = .ok (ch, nc)) (ht : typeMatches ch.type iendType = true) :
    parseChunks isLE b c = .ok [ch] := by
  rw [parseChunks]
  split
  next e2 heq =>
    rw [h] at heq
    cases heq
  next ch2 nc2 heq =>
    rw [h] at heq
    cases heq
    rw [if_pos ht]

theorem parseChunks_ok_cons {isLE : Bool} {b : List Nat} {c : Nat} {ch : Chunk} {nc : Nat}
    (h : ReadChunk isLE b c = .ok (ch, nc)) (ht : typeMatches ch.type iendType = false) :
    parseChunks isLE b c =
      match parseChunks isLE b nc with
      | .error e => .error e
      | .ok rest => .ok (ch :: rest) := by
  rw [parseChunks]
  split
  next e2 heq =>
    rw [h] at heq
    cases heq
  next ch2 nc2 heq =>
    rw [h] at heq
    cases heq
    rw [if_neg (by simp [ht])]

theorem serializeChunk_length {c : Chunk} (hwf : wfChunk c) :
    (serializeChunk c).length = c.dataLength + 12 := by
  obtain ⟨h1, -, h3⟩ := hwf
  simp [serializeChunk, u32be, h3, ← h1]
  omega

theorem ReadChunk_ser (isLE : Bool) (pre post : List Nat) {c : Chunk} (hwf : wfChunk c) :
    ReadChunk isLE (pre ++ (serializeChunk c ++ post)) pre.length =
      .ok (c, pre.length + 4 + 4 + c.dataLength + 4) := by
  obtain ⟨h1, h2, h3⟩ := hwf
  have hcrc : chunkChecksum c.type c.data < 2 ^ 32 := chunkChecksum_lt _ _
  have r1 : readBytes (pre ++ (serializeChunk c ++ post)) pre.length 4 =
      some (u32be c.dataLength) := by
    have hshape : pre ++ (serializeChunk c ++ post) =
        pre ++ u32be c.dataLength ++ (c.type ++ c.data ++
          u32be (chunkChecksum c.type c.data) ++ post) := by
      simp [serializeChunk]
    rw [hshape]
    exact readBytes_at pre _ _ (by simp [u32be])
  have r2 : readBytes (pre ++ (serializeChunk c ++ post)) (pre.length + 4) 4 =
      some c.type := by
    have hshape : pre ++ (serializeChunk c ++ post) =
        (pre ++ u32be c.dataLength) ++ c.type ++ (c.data ++
          u32be (chunkChecksum c.type c.data) ++ post) := by
      simp [serializeChunk]
    have hlen : pre.length + 4 = (pre ++ u32be c.dataLength).length := by
      simp [u32be]
    rw [hshape, hlen]
    exact readBytes_at _ _ _ h3
  have r3 : readBytes (pre ++ (serializeChunk c ++ post)) (pre.length + 4 + 4)
      c.dataLength = some c.data := by
    have hshape : pre ++ (serializeChunk c ++ post) =
        (pre ++ u32be c.dataLength ++ c.type) ++ c.data ++
          (u32be (chunkChecksum c.type c.data) ++ post) := by
      simp [serializeChunk]
    have hlen : pre.length + 4 + 4 = (pre ++ u32be c.dataLength ++ c.type).length := by
      simp [u32be, h3]
    rw [hshape, hlen]
    exact readBytes_at _ _ _ h1.symm
  have r4 : readBytes (pre ++ (serializeChunk c ++ post))
      (pre.length + 4 + 4 + c.dataLength) 4 =
      some (u32be (chunkChecksum c.type c.data)) := by
    have hshape : pre ++ (serializeChunk c ++ post) =
        (pre ++ u32be c.dataLength ++ c.type ++ c.data) ++
          u32be (chunkChecksum c.type c.data) ++ post := by
      simp [serializeChunk]
    have hlen : pre.length + 4 + 4 + c.dataLength =
        (pre ++ u32be c.dataLength ++ c.type ++ c.data).length := by
      simp [u32be, h3, ← h1]
      omega
    rw [hshape, hlen]
    exact readBytes_at _ _ _ (by simp [u32be])
  have hlen32 : readU32 isLE (u32be c.dataLength) = c.dataLength := readU32_u32be isLE h2
  rw [ReadChunk_eval r1 r2 (by rw [hlen32]; exact r3) (by rw [hlen32]; exact r4)]
  rw [readU32_u32be isLE hcrc, hlen32]
  simp

theorem parseChunks_ser (chunks : List Chunk) : ∀ (isLE : Bool) (pre junk : List Nat),
    (∀ c ∈ chunks, wfChunk c) → isTerminatorSeq chunks = true →
    parseChunks isLE (pre ++ (serializeChunks chunks ++ junk)) pre.length = .ok chunks := by
  induction chunks with
  | nil =>
    intro isLE pre junk hwf hterm
    simp [isTerminatorSeq] at hterm
  | cons c rest ih =>
    intro isLE pre junk hwf hterm
    have hwfc : wfChunk c := hwf c (by simp)
    cases rest with
    | nil =>
      have hser : serializeChunks [c] ++ junk = serializeChunk c ++ junk := by
        simp [serializeChunks]
      rw [hser]
      have hr := ReadChunk_ser isLE pre junk hwfc
      have ht : typeMatches c.type iendType = true := by
        simpa [isTerminatorSeq] using hterm
      exact parseChunks_ok_end hr ht
    | cons c2 r2 =>
      have ht : typeMatches c.type iendType = false := by
        simp [isTerminatorSeq] at hterm
        simpa using hterm.1
      have hterm2 : isTerminatorSeq (c2 :: r2) = true := by
        simp [isTerminatorSeq] at hterm ⊢
        exact hterm.2
      have hser : serializeChunks (c :: c2 :: r2) ++ junk =
          serializeChunk c ++ (serializeChunks (c2 :: r2) ++ junk) := by
        simp [serializeChunks]
      rw [hser]
      have hr := ReadChunk_ser isLE pre (serializeChunks (c2 :: r2) ++ junk) hwfc
      rw [parseChunks_ok_cons hr ht]
      have hpre : pre ++ (serializeChunk c ++ (serializeChunks (c2 :: r2) ++ junk)) =
          (pre ++ serializeChunk c) ++ (serializeChunks (c2 :: r2) ++ junk) := by
        simp
      have hpos : pre.length + 4 + 4 + c.dataLength + 4 =
          (pre ++ serializeChunk c).length := by
        simp [serializeChunk_length hwfc]
        omega
      rw [hpre, hpos, ih isLE (pre ++ serializeChunk c) junk
        (fun d hd => hwf d (by simp [hd])) hterm2]

theorem pairCheck_eq_spec {bd ct : Nat}
    (hbd : bd = 1 ∨ bd = 2 ∨ bd = 4 ∨ bd = 8 ∨ bd = 16)
    (hct : ct = 0 ∨ ct = 2 ∨ ct = 3 ∨ ct = 4 ∨ ct = 6) :
    ihdrPairCheck ct bd = specLegalPair bd ct := by
  rcases hbd with rfl | rfl | rfl | rfl | rfl <;>
    rcases hct with rfl | rfl | rfl | rfl | rfl <;> decide

theorem printLoop_step {dest : Nat → Nat} {size stride i : Nat}
    (h : i < size) (hs : 0 < stride) :
    printLoop dest size stride i = dest i :: printLoop dest size stride (i + stride) := by
  rw [printLoop]
  simp [h, hs]

theorem printLoop_stop {dest : Nat → Nat} {size stride i : Nat} (h : ¬ i < size) :
    printLoop dest size stride i = [] := by
  rw [printLoop]
  simp [h]

theorem DecompressLoop_no_idat (chunks : List Chunk) :
    ∀ (mem : Nat → Nat) (idx size : Nat),
    (∀ c ∈ chunks, typeMatches c.type idatType = false) →
    DecompressLoop chunks mem idx size = (mem, idx, size) := by
  induction chunks with
  | nil => intro mem idx size hno; rfl
  | cons c rest ih =>
    intro mem idx size hno
    rw [DecompressLoop, if_neg (by simp [hno c (by simp)])]
    exact ih mem idx size (fun d hd => hno d (by simp [hd]))

theorem compressedOf_no_idat {chunks : List Chunk} (mem : Nat → Nat)
    (hno : ∀ c ∈ chunks, typeMatches c.type idatType = false) :
    compressedOf chunks mem = [] := by
  simp [compressedOf, DecompressLoop_no_idat chunks mem 0 0 hno]

theorem parseChunks_no_uEOC (isLE : Bool) (b : List Nat) :
    ∀ c, parseChunks isLE b c ≠ .error .unexpectedEndOfContainer := by
  have key : ∀ (n : Nat) (c : Nat), b.length - c ≤ n →
      parseChunks isLE b c ≠ .error .unexpectedEndOfContainer := by
    intro n
    induction n with
    | zero =>
      intro c hc
      have hread : readBytes b c 4 = none := by
        unfold readBytes
        rw [if_neg (by omega)]
      have hr : ReadChunk isLE b c = .error .outOfBoundsRead := by
        simp only [ReadChunk, hread]
      rw [parseChunks_error hr]
      simp
    | succ n ih =>
      intro c hc
      cases hr : ReadChunk isLE b c with
      | error e =>
        rw [parseChunks_error hr]
        rcases ReadChunk_error_cases hr with rfl | rfl <;> simp
      | ok pair =>
        obtain ⟨ch, nc⟩ := pair
        by_cases ht : typeMatches ch.type iendType
        · rw [parseChunks_ok_end hr ht]
          simp
        · rw [parseChunks_ok_cons hr (by simpa using ht)]
          have hb := ReadChunk_ok_bounds hr
          have hrec := ih nc (by omega)
          cases hp : parseChunks isLE b nc with
          | error e2 =>
            rw [hp] at hrec
            simpa using hrec
          | ok rest =>
            simp
  intro c
  exact key (b.length - c) c (le_refl _)

/-- C1.  The specification requires structural truncation failures
(`Truncated`, `InvalidLength`, `UnexpectedEndOfContainer`) with no byte
past the end of the buffer ever read.  The code instead performs unchecked
`memcpy` reads: on the concrete truncated input
`signature ++ length=25 ++ "IDAT"` (a declared payload of 25 bytes with
zero bytes remaining) the parse reaches an out-of-bounds read — undefined
behavior in C, the distinguished `outOfBoundsRead` outcome of the model —
and neither the chunk reader nor the container loop can produce any of the
three structural errors the claim names, on any input whatever. -/
theorem readChunk_truncation_reads_out_of_bounds :
    parseContainer true (pngSignature ++ ([0, 0, 0, 25] ++ idatType)) =
      .error .outOfBoundsRead ∧
    (∀ (isLE : Bool) (b : List Nat) (c : Nat),
      ReadChunk isLE b c ≠ .error .truncated ∧
      ReadChunk isLE b c ≠ .error .invalidLength) ∧
    (∀ (isLE : Bool) (b : List Nat) (c : Nat),
      parseChunks isLE b c ≠ .error .unexpectedEndOfContainer) := by
  refine ⟨?_, ?_, ?_⟩
  · have hfb : FillBuffer (pngSignature ++ ([0, 0, 0, 25] ++ idatType)) = .ok 8 := by decide
    have hread : ReadChunk true (pngSignature ++ ([0, 0, 0, 25] ++ idatType)) 8 =
        .error .outOfBoundsRead := by decide
    simp only [parseContainer, hfb]
    exact parseChunks_error hread
  · intro isLE b c
    constructor
    · intro h
      rcases ReadChunk_error_cases h with h2 | h2 <;> simp at h2
    · intro h
      rcases ReadChunk_error_cases h with h2 | h2 <;> simp at h2
  · exact fun isLE b c => parseChunks_no_uEOC isLE b c

/-- C2.  Whenever the four reads of a chunk record are in bounds but the
stored 32-bit checksum differs from the CRC-32 recomputed over
`type || payload` (seeded as `crc32(0L, Z_NULL, 0)`), `ReadChunk` fails
with the checksum-mismatch error and the container loop started at that
chunk returns that error — no chunk sequence, not even a partial one. -/
theorem readChunk_checksum_mismatch_aborts (isLE : Bool) (b : List Nat) (cursor : Nat)
    (lenBytes typeBytes data crcBytes : List Nat)
    (h1 : readBytes b cursor 4 = some lenBytes)
    (h2 : readBytes b (cursor + 4) 4 = some typeBytes)
    (h3 : readBytes b (cursor + 4 + 4) (readU32 isLE lenBytes) = some data)
    (h4 : readBytes b (cursor + 4 + 4 + readU32 isLE lenBytes) 4 = some crcBytes)
    (hm : readU32 isLE crcBytes ≠ chunkChecksum typeBytes data) :
    ReadChunk isLE b cursor = .error .checksumMismatch ∧
    parseChunks isLE b cursor = .error .checksumMismatch := by
  have hr : ReadChunk isLE b cursor = .error .checksumMismatch := by
    rw [ReadChunk_eval h1 h2 h3 h4, if_pos hm]
  exact ⟨hr, parseChunks_error hr⟩

theorem readChunk_checksum_mismatch_aborts_witness :
    ReadChunk true [0, 0, 0, 0, 73, 69, 78, 68, 0, 0, 0, 1] 0 = .error .checksumMismatch ∧
    parseChunks true [0, 0, 0, 0, 73, 69, 78, 68, 0, 0, 0, 1] 0 =
      .error .checksumMismatch :=
  readChunk_checksum_mismatch_aborts true _ 0 [0, 0, 0, 0] [73, 69, 78, 68] [] [0, 0, 0, 1]
    (by decide) (by decide) (by decide) (by decide) (by decide)

/-- C3.  Any buffer of at least 8 bytes whose first 8 bytes are not the
fixed signature makes the container parse fail with `invalidSignature`
before any chunk is read, and on any buffer that does begin with the
signature the chunk walk starts at offset 8. -/
theorem parseContainer_signature_check (isLE : Bool) (buffer : List Nat) :
    (8 ≤ buffer.length → buffer.take 8 ≠ pngSignature →
      parseContainer isLE buffer = .error .invalidSignature) ∧
    (buffer.take 8 = pngSignature →
      parseContainer isLE buffer = parseChunks isLE buffer 8) := by
  constructor
  · intro hlen hne
    have h0 : ¬ buffer.length = 0 := by omega
    have h2 : ¬ (buffer.length < 8 ∧ buffer = pngSignature.take buffer.length) := by
      intro hcontra
      omega
    simp only [parseContainer, FillBuffer, if_neg h0, if_neg hne, if_neg h2]
  · intro heq
    have h0 : ¬ buffer.length = 0 := by
      intro hz
      rw [List.eq_nil_of_length_eq_zero hz] at heq
      simp [pngSignature] at heq
    simp only [parseContainer, FillBuffer, if_neg h0, if_pos heq]

theorem parseContainer_signature_check_witness :
    parseContainer true [1, 2, 3, 4, 5, 6, 7, 8, 9] = .error .invalidSignature ∧
    parseContainer true (pngSignature ++ [5]) =
      parseChunks true (pngSignature ++ [5]) 8 :=
  ⟨(parseContainer_signature_check true _).1 (by decide) (by decide),
   (parseContainer_signature_check true _).2 (by decide)⟩

/-- C5.  A chunk record whose declared length field decodes to 0 and whose
stored checksum matches the checksum of `type || empty payload` is read
successfully as a chunk with a zero-length payload, advancing the cursor
by the 12 bytes of framing; it is not treated as an error. -/
theorem readChunk_empty_chunk_ok (isLE : Bool) (b : List Nat) (cursor : Nat)
    (lenBytes typeBytes crcBytes : List Nat)
    (h1 : readBytes b cursor 4 = some lenBytes)
    (hl : readU32 isLE lenBytes = 0)
    (h2 : readBytes b (cursor + 4) 4 = some typeBytes)
    (h4 : readBytes b (cursor + 4 + 4) 4 = some crcBytes)
    (hcrc : readU32 isLE crcBytes = chunkChecksum typeBytes []) :
    ReadChunk isLE b cursor =
      .ok ({ dataLength := 0, type := typeBytes, data := [] }, cursor + 12) := by
  have hbound := readBytes_some_bound h4
  have h3 : readBytes b (cursor + 4 + 4) (readU32 isLE lenBytes) = some [] := by
    rw [hl]
    unfold readBytes
    rw [if_pos (by omega)]
    simp
  have h4p : readBytes b (cursor + 4 + 4 + readU32 isLE lenBytes) 4 = some crcBytes := by
    rw [hl]
    simpa using h4
  rw [ReadChunk_eval h1 h2 h3 h4p, if_neg (by simp [hcrc]), hl]

theorem readChunk_empty_chunk_ok_witness :
    ReadChunk true [0, 0, 0, 0, 73, 69, 78, 68, 174, 66, 96, 130] 0 =
      .ok ({ dataLength := 0, type := [73, 69, 78, 68], data := [] }, 12) :=
  readChunk_empty_chunk_ok true _ 0 [0, 0, 0, 0] [73, 69, 78, 68] [174, 66, 96, 130]
    (by decide) (by decide) (by decide) (by decide) (by decide)

/-- C4.  Round trip for the container walk: for every buffer built as the
signature followed by the wire forms of a well-formed chunk sequence whose
last chunk (and only its last chunk) carries the terminator tag, followed
by arbitrary trailing bytes, the parse returns exactly that chunk
sequence, in order — it starts right after the 8-byte signature, stops at
the first terminator chunk, includes that chunk as the last element, and
never reads the bytes after it. -/
theorem parseContainer_roundtrip (isLE : Bool) (chunks : List Chunk) (junk : List Nat)
    (hwf : ∀ c ∈ chunks, wfChunk c) (hterm : isTerminatorSeq chunks = true) :
    parseContainer isLE (pngSignature ++ (serializeChunks chunks ++ junk)) = .ok chunks := by
  have h8 : (pngSignature ++ (serializeChunks chunks ++ junk)).take 8 = pngSignature := by
    rw [show (8 : Nat) = pngSignature.length from rfl, List.take_left]
  have h0 : ¬ (pngSignature ++ (serializeChunks chunks ++ junk)).length = 0 := by
    simp [pngSignature]
  simp only [parseContainer, FillBuffer, if_neg h0, if_pos h8]
  exact parseChunks_ser chunks isLE pngSignature junk hwf hterm

theorem parseContainer_roundtrip_witness :
    parseContainer true (pngSignature ++
      (serializeChunks [{ dataLength := 0, type := [73, 69, 78, 68], data := [] }] ++
        [7, 7])) = .ok [{ dataLength := 0, type := [73, 69, 78, 68], data := [] }] :=
  parseContainer_roundtrip true _ [7, 7] (by decide) (by decide)

/-- C6 (amended).  On a little-endian host, and provided the three bytes
the code never writes in the `bitDepth` and `colorType` fields of the
uninitialized `Ihdr` struct happen to be zero, header validation of a
payload of at least 13 bytes with nonzero width and height,
compressionMethod 0, filterMethod 0 and interlaceMethod 0 or 1, and with a
valid bitDepth and colorType, succeeds exactly when the
(bitDepth, colorType) pair is in the legal table, and rejects every other
such pair with `incompatibleBitDepthAndColorType`. -/
theorem getIhdr_validation_table (w0 w1 w2 w3 h0 h1 h2 h3 bd ct im : Nat)
    (rest : List Nat) (init : Ihdr)
    (hw : ¬(w0 = 0 ∧ w1 = 0 ∧ w2 = 0 ∧ w3 = 0))
    (hh : ¬(h0 = 0 ∧ h1 = 0 ∧ h2 = 0 ∧ h3 = 0))
    (hbd : bd = 1 ∨ bd = 2 ∨ bd = 4 ∨ bd = 8 ∨ bd = 16)
    (hct : ct = 0 ∨ ct = 2 ∨ ct = 3 ∨ ct = 4 ∨ ct = 6)
    (him : im = 0 ∨ im = 1)
    (hib : init.bitDepth < 256) (hic : init.colorType < 256) :
    GetIhdrChunkData true
      { dataLength := rest.length + 13, type := ihdrType,
        data := w0 :: w1 :: w2 :: w3 :: h0 :: h1 :: h2 :: h3 ::
          bd :: ct :: 0 :: 0 :: im :: rest }
      init =
      (if specLegalPair bd ct then
        .ok { width := ToLittleEndian (leVal [w0, w1, w2, w3]),
              height := ToLittleEndian (leVal [h0, h1, h2, h3]),
              bitDepth := bd, colorType := ct,
              compressionMethod := 0, filterMethod := 0, interlaceMethod := im }
      else .error .incompatibleBitDepthAndColorType) := by
  have r1 : readBytes (w0 :: w1 :: w2 :: w3 :: h0 :: h1 :: h2 :: h3 ::
      bd :: ct :: 0 :: 0 :: im :: rest) 0 4 = some [w0, w1, w2, w3] := by
    unfold readBytes
    rw [if_pos (by simp only [List.length_cons]; omega)]
    rfl
  have r2 : readBytes (w0 :: w1 :: w2 :: w3 :: h0 :: h1 :: h2 :: h3 ::
      bd :: ct :: 0 :: 0 :: im :: rest) 4 4 = some [h0, h1, h2, h3] := by
    unfold readBytes
    rw [if_pos (by simp only [List.length_cons]; omega)]
    rfl
  have g8 : (w0 :: w1 :: w2 :: w3 :: h0 :: h1 :: h2 :: h3 ::
      bd :: ct :: 0 :: 0 :: im :: rest)[8]? = some bd := by simp
  have g9 : (w0 :: w1 :: w2 :: w3 :: h0 :: h1 :: h2 :: h3 ::
      bd :: ct :: 0 :: 0 :: im :: rest)[9]? = some ct := by simp
  have g10 : (w0 :: w1 :: w2 :: w3 :: h0 :: h1 :: h2 :: h3 ::
      bd :: ct :: 0 :: 0 :: im :: rest)[10]? = some 0 := by simp
  have g11 : (w0 :: w1 :: w2 :: w3 :: h0 :: h1 :: h2 :: h3 ::
      bd :: ct :: 0 :: 0 :: im :: rest)[11]? = some 0 := by simp
  have g12 : (w0 :: w1 :: w2 :: w3 :: h0 :: h1 :: h2 :: h3 ::
      bd :: ct :: 0 :: 0 :: im :: rest)[12]? = some im := by simp
  have hbdv : writeOneByte true init.bitDepth bd = bd := by
    simp [writeOneByte, Nat.div_eq_of_lt hib]
  have hctv : writeOneByte true init.colorType ct = ct := by
    simp [writeOneByte, Nat.div_eq_of_lt hic]
  have hdl : ¬ (rest.length + 13 < 13) := by omega
  have hw0 : ¬ (memcpyU32 true [w0, w1, w2, w3] = 0) := by
    simp only [memcpyU32, leVal, if_true]
    omega
  have hh0 : ¬ (memcpyU32 true [h0, h1, h2, h3] = 0) := by
    simp only [memcpyU32, leVal, if_true]
    omega
  have hbdmem : ¬ (bd ≠ 1 ∧ bd ≠ 2 ∧ bd ≠ 4 ∧ bd ≠ 8 ∧ bd ≠ 16) := by
    rcases hbd with rfl | rfl | rfl | rfl | rfl <;> simp
  have hctmem : ¬ (ct ≠ 0 ∧ ct ≠ 2 ∧ ct ≠ 3 ∧ ct ≠ 4 ∧ ct ≠ 6) := by
    rcases hct with rfl | rfl | rfl | rfl | rfl <;> simp
  have himv : ¬ (im ≠ 0 ∧ im ≠ 1) := by
    rcases him with rfl | rfl <;> simp
  have hcm : ¬ ((0 : Nat) ≠ 0) := by simp
  have hpair := pairCheck_eq_spec hbd hct
  simp only [GetIhdrChunkData, r1, r2, g8, g9, g10, g11, g12, hbdv, hctv,
    if_neg hdl, if_neg hw0, if_neg hh0, if_neg hbdmem, if_neg hctmem,
    if_neg himv, if_neg hcm, hpair]
  by_cases hsp : specLegalPair bd ct
  · rw [if_pos hsp, if_pos hsp]
    simp [normalizeU32, memcpyU32]
  · rw [if_neg hsp, if_neg hsp]

theorem getIhdr_validation_table_witness :
    GetIhdrChunkData true
      { dataLength := 13, type := ihdrType,
        data := [0, 0, 0, 1, 0, 0, 0, 1, 8, 2, 0, 0, 0] }
      { width := 0, height := 0, bitDepth := 0, colorType := 0,
        compressionMethod := 0, filterMethod := 0, interlaceMethod := 0 } =
      (if specLegalPair 8 2 then
        .ok { width := ToLittleEndian (leVal [0, 0, 0, 1]),
              height := ToLittleEndian (leVal [0, 0, 0, 1]),
              bitDepth := 8, colorType := 2,
              compressionMethod := 0, filterMethod := 0, interlaceMethod := 0 }
      else .error .incompatibleBitDepthAndColorType) :=
  getIhdr_validation_table 0 0 0 1 0 0 0 1 8 2 0 [] _
    (by decide) (by decide) (by decide) (by decide) (by decide) (by decide) (by decide)

/-- C6 (counterexample).  The claim as stated is false on the code: with
the legal pair (bitDepth 8, Truecolor) in the payload but a pre-call
`bitDepth` field whose untouched upper bytes are nonzero (here the bit
pattern 256), the one-byte `memcpy` leaves `bitDepth = 264` and the
header is rejected with `invalidBitDepth` instead of succeeding. -/
theorem getIhdr_garbage_rejects_legal_pair :
    specLegalPair 8 2 = true ∧
    GetIhdrChunkData true
      { dataLength := 13, type := ihdrType,
        data := [0, 0, 0, 1, 0, 0, 0, 1, 8, 2, 0, 0, 0] }
      { width := 0, height := 0, bitDepth := 256, colorType := 0,
        compressionMethod := 0, filterMethod := 0, interlaceMethod := 0 } =
      .error .invalidBitDepth := by
  constructor
  · decide
  · decide

/-- C7.  The claim says the compressed buffer handed to the decompressor
is the byte-for-byte concatenation of the IDAT payloads in file order.
The collection loop instead advances `compressedSourceIndex` by one (not
by the payload length) per IDAT chunk, so the second payload overwrites
the first from offset 1: with payloads `[1,2]` and `[3,4]` the buffer
handed to `uncompress` (over zeroed scratch memory) is `[1,3,4,0]`, not
`[1,2] ++ [3,4]`. -/
theorem decompress_concatenation_overlaps :
    compressedOf [{ dataLength := 2, type := idatType, data := [1, 2] },
                  { dataLength := 2, type := idatType, data := [3, 4] }] (fun _ => 0) =
      [1, 3, 4, 0] ∧
    compressedOf [{ dataLength := 2, type := idatType, data := [1, 2] },
                  { dataLength := 2, type := idatType, data := [3, 4] }] (fun _ => 0) ≠
      [1, 2] ++ [3, 4] := by
  constructor
  · decide
  · decide

/-- C8 (amended).  With no image-data chunk in the sequence, the code has
no `NoImageData` path: it hands the decompressor an empty compressed
buffer, and when the decompressor rejects it (an empty stream is not a
valid compressed stream) the operation fails with `decompressionFailed` —
never with `noImageData` — independent of the header. -/
theorem decompress_no_idat_fails_decompression
    (uncompress : List Nat → Except Int (List Nat)) (chunks : List Chunk)
    (mem : Nat → Nat) (st : Int)
    (hno : ∀ c ∈ chunks, typeMatches c.type idatType = false)
    (hu : uncompress [] = .error st) :
    DecompressIdatChuncks uncompress chunks mem = .error .decompressionFailed ∧
    DecompressIdatChuncks uncompress chunks mem ≠ .error .noImageData := by
  have hc : compressedOf chunks mem = [] := compressedOf_no_idat mem hno
  have hres : DecompressIdatChuncks uncompress chunks mem = .error .decompressionFailed := by
    simp only [DecompressIdatChuncks, hc, hu]
  exact ⟨hres, by simp [hres]⟩

theorem decompress_no_idat_fails_decompression_witness :
    DecompressIdatChuncks (fun _ => .error (-3))
      [{ dataLength := 0, type := [73, 69, 78, 68], data := [] }] (fun _ => 0) =
      .error .decompressionFailed ∧
    DecompressIdatChuncks (fun _ => .error (-3))
      [{ dataLength := 0, type := [73, 69, 78, 68], data := [] }] (fun _ => 0) ≠
      .error .noImageData :=
  decompress_no_idat_fails_decompression _ _ _ (-3) (by decide) rfl

/-- C8 (counterexample).  The claim as stated is false on the code: on a
chunk sequence with no image-data chunk (a lone terminator chunk) and a
decompressor that rejects the empty stream with status `-3`
(`Z_DATA_ERROR`), the operation fails with `decompressionFailed`, not
with `noImageData`. -/
theorem decompress_no_idat_not_noImageData :
    DecompressIdatChuncks
      (fun compressed => if compressed.length = 0 then .error (-3) else .ok [])
      [{ dataLength := 0, type := [73, 69, 78, 68], data := [] }] (fun _ => 0) =
      .error .decompressionFailed ∧
    DecompressIdatChuncks
      (fun compressed => if compressed.length = 0 then .error (-3) else .ok [])
      [{ dataLength := 0, type := [73, 69, 78, 68], data := [] }] (fun _ => 0) ≠
      .error .noImageData := by
  constructor
  · decide
  · decide

/-- C10.  Header validation is not a function of the payload bytes: the
one-byte `memcpy`s into the four-byte `bitDepth`/`colorType` fields leave
the struct's pre-call bytes in place, so the same header chunk (a valid
1x1, bit depth 8, TruecolorAlpha header) is accepted when the
uninitialized `colorType` field happens to hold 0 and rejected with
`invalidColorType` when it happens to hold the bit pattern 512. -/
theorem getIhdr_depends_on_uninitialized_bytes :
    GetIhdrChunkData true
      { dataLength := 13, type := ihdrType,
        data := [0, 0, 0, 1, 0, 0, 0, 1, 8, 6, 0, 0, 0] }
      { width := 0, height := 0, bitDepth := 0, colorType := 0,
        compressionMethod := 0, filterMethod := 0, interlaceMethod := 0 } =
      .ok { width := 1, height := 1, bitDepth := 8, colorType := 6,
            compressionMethod := 0, filterMethod := 0, interlaceMethod := 0 } ∧
    GetIhdrChunkData true
      { dataLength := 13, type := ihdrType,
        data := [0, 0, 0, 1, 0, 0, 0, 1, 8, 6, 0, 0, 0] }
      { width := 0, height := 0, bitDepth := 0, colorType := 512,
        compressionMethod := 0, filterMethod := 0, interlaceMethod := 0 } =
      .error .invalidColorType := by
  constructor
  · decide
  · decide

/-- C9.  The inflated bytes are not delivered to the caller:
`uncompressedDestination` is passed to `DecompressIdatChuncks` by value,
so `main` dumps bytes through its own never-assigned pointer.  On the
well-formed `demoFile` with a decompressor that returns `[7, 7, 7, 7]`,
the bytes `main` observes are whatever the memory behind that wild
pointer holds (here `0`s, or `9`s), never the decompressor's `7`s —
although the decompressor demonstrably returned `[7, 7, 7, 7]` for
exactly this chunk sequence. -/
theorem main_observes_junk_not_inflated_bytes :
    DecompressIdatChuncks (fun _ => .ok [7, 7, 7, 7])
      [demoIhdrChunk, demoIdatChunk, demoIendChunk] (fun _ => 0) = .ok [7, 7, 7, 7] ∧
    mainProgram true (fun _ => .ok [7, 7, 7, 7]) demoFile
      { width := 0, height := 0, bitDepth := 0, colorType := 0,
        compressionMethod := 0, filterMethod := 0, interlaceMethod := 0 }
      (fun _ => 0) (fun _ => 0) = .ok [0] ∧
    mainProgram true (fun _ => .ok [7, 7, 7, 7]) demoFile
      { width := 0, height := 0, bitDepth := 0, colorType := 0,
        compressionMethod := 0, filterMethod := 0, interlaceMethod := 0 }
      (fun _ => 9) (fun _ => 0) = .ok [9] := by
  have hparse : parseChunks true demoFile 8 =
      .ok [demoIhdrChunk, demoIdatChunk, demoIendChunk] := by
    have h := parseChunks_ser [demoIhdrChunk, demoIdatChunk, demoIendChunk] true
      pngSignature [] (by decide) (by decide)
    simpa [demoFile] using h
  have hfb : FillBuffer demoFile = .ok 8 := by decide
  have hihdr : GetIhdrChunkData true demoIhdrChunk
      { width := 0, height := 0, bitDepth := 0, colorType := 0,
        compressionMethod := 0, filterMethod := 0, interlaceMethod := 0 } =
      .ok { width := 1, height := 1, bitDepth := 8, colorType := 6,
            compressionMethod := 0, filterMethod := 0, interlaceMethod := 0 } := by
    decide
  have hdec : DecompressIdatChuncks (fun _ => .ok [7, 7, 7, 7])
      [demoIhdrChunk, demoIdatChunk, demoIendChunk] (fun _ => 0) = .ok [7, 7, 7, 7] := rfl
  refine ⟨hdec, ?_, ?_⟩
  · simp only [mainProgram, hfb, hparse, hihdr, hdec]
    rw [show (1 : Nat) * 4 = 4 from rfl, show List.length [7, 7, 7, 7] = 4 from rfl,
      printLoop_step (by omega) (by omega), printLoop_stop (by omega)]
  · simp only [mainProgram, hfb, hparse, hihdr, hdec]
    rw [show (1 : Nat) * 4 = 4 from rfl, show List.length [7, 7, 7, 7] = 4 from rfl,
      printLoop_step (by omega) (by omega), printLoop_stop (by omega)]
